import Mathlib

/-!
Verification of the feed-merge pipeline of the marovole/feed repository.

The development shallowly embeds the JavaScript sources:
  src/scraper-cli.js   (one-shot CLI merge cycle, GitHub Actions entry point)
  src/scrapers/twitter.js  (adapter, thread filter, and the express server
                            with its manual-refresh endpoint and pollFeeds)
  src/scrapers/github.js, the two reddit adapter variants, and the
  supabase mirror module.

JavaScript Sets are modelled as insertion-ordered duplicate-free lists
(a JS Set iterates in insertion order, which matters because the
persist-time trim keeps the last 1000 entries of that order).
Timestamps are modelled as integers; the sort comparator
new Date(b.timestamp) - new Date(a.timestamp) is a stable sort by
descending timestamp, modelled with List.mergeSort (stable, like the
ES2019 Array.prototype.sort the engine relies on).

The storage module (storage.js: filterNewItems, loadFeed, saveFeed,
saveSeen) is NOT among the sources; the definitions below that embed it
are modelled from the spec and say so in their doc comments.
-/

namespace Feed

/-- NormalizedItem of section 3 of the spec, as produced by the adapters in
src/scrapers.  The metadata mapping is opaque to the merge engine except for
the reserved conversation_id field, which is the only metadata field any of
the embedded code reads; it is inlined here as an optional string. -/
structure Item where
  id : String
  source : String
  author : String
  content : String
  url : String
  timestamp : Int
  conversation_id : Option String
deriving Repr, DecidableEq

/-- JS Set.add on an insertion-ordered set: append the element unless present. -/
def setAdd (s : List String) (x : String) : List String :=
  if x ∈ s then s else s ++ [x]

/-- JS new Set(list): deduplicate keeping the first occurrence of each
element, preserving insertion order. -/
def setOfList (l : List String) : List String :=
  l.foldl setAdd []

/-- JS Array.prototype.slice(-n) (used for the seen-set retention trim):
keep the last n elements, or the whole list when it is shorter. -/
def lastN (n : Nat) (l : List String) : List String :=
  l.drop (l.length - n)

/-- Modelled from the spec: filterNewItems lives in storage.js, which is not
among the sources.  Spec section 4.1 step 2: "Admit a candidate iff its id
is not in seenIds". -/
def filterNewItems (items : List Item) (seen : List String) : List Item :=
  items.filter (fun i => !(decide (i.id ∈ seen)))

/-- Comparator of scraper-cli.js line 97:
feed.sort((a, b) => new Date(b.timestamp) - new Date(a.timestamp)),
a boolean less-or-equal for descending timestamp order. -/
def tsDescLe (a b : Item) : Bool :=
  decide (b.timestamp ≤ a.timestamp)

/-- The merge engine's sort step (scraper-cli.js lines 94-97): append the
admitted items to the current feed and stably sort the result by descending
timestamp. -/
def mergeFeed (feed newItems : List Item) : List Item :=
  (feed ++ newItems).mergeSort tsDescLe

/-- Everything one run of scraper-cli.js main persists or feeds to sinks. -/
structure CliResult where
  newItems : List Item
  docsFeed : List Item
  dataFeed : Option (List Item)
  seenAfter : List String
  savedSeenIds : List String
  savedSeenConvs : List String
deriving Repr, DecidableEq

/-- One merge cycle of scraper-cli.js main (lines 56-119), starting from the
loaded docs feed, the loaded seen artifact and the combined post-filter
candidate list:
  newItems      is the admitted list (line 89);
  docsFeed      is what line 112 writes to docs/data/feed.json: the sorted
                but UNtruncated feed when there are new items, otherwise the
                loaded feed unchanged;
  dataFeed      is the argument of the saveFeed call (line 102), made only
                when there are new items, truncated to 500;
  seenAfter     is the in-memory seen set after the line 93 adds;
  savedSeenIds / savedSeenConvs are the trimmed artifact of lines 115-119. -/
def cliCycle (feed0 : List Item) (seenIds0 convs0 : List String)
    (allItems : List Item) : CliResult :=
  let seen := setOfList seenIds0
  let newItems := filterNewItems allItems seen
  let seen1 := newItems.foldl (fun s i => setAdd s i.id) seen
  let docsFeed := if newItems.isEmpty then feed0 else mergeFeed feed0 newItems
  let dataFeed := if newItems.isEmpty then none
                  else some ((mergeFeed feed0 newItems).take 500)
  { newItems := newItems
    docsFeed := docsFeed
    dataFeed := dataFeed
    seenAfter := seen1
    savedSeenIds := lastN 1000 seen1
    savedSeenConvs := lastN 1000 convs0 }

/-! Projection lemmas unfolding one field of cliCycle at a time. -/

theorem cliCycle_newItems (feed0 : List Item) (s c : List String)
    (items : List Item) :
    (cliCycle feed0 s c items).newItems
      = filterNewItems items (setOfList s) := rfl

theorem cliCycle_docsFeed (feed0 : List Item) (s c : List String)
    (items : List Item) :
    (cliCycle feed0 s c items).docsFeed
      = if (filterNewItems items (setOfList s)).isEmpty then feed0
        else mergeFeed feed0 (filterNewItems items (setOfList s)) := rfl

theorem cliCycle_dataFeed (feed0 : List Item) (s c : List String)
    (items : List Item) :
    (cliCycle feed0 s c items).dataFeed
      = if (filterNewItems items (setOfList s)).isEmpty then none
        else some ((mergeFeed feed0 (filterNewItems items (setOfList s))).take 500) := rfl

theorem cliCycle_seenAfter (feed0 : List Item) (s c : List String)
    (items : List Item) :
    (cliCycle feed0 s c items).seenAfter
      = (filterNewItems items (setOfList s)).foldl
          (fun t i => setAdd t i.id) (setOfList s) := rfl

set_option maxRecDepth 8192 in
theorem cliCycle_savedSeenIds (feed0 : List Item) (s c : List String)
    (items : List Item) :
    (cliCycle feed0 s c items).savedSeenIds
      = lastN 1000 ((filterNewItems items (setOfList s)).foldl
          (fun t i => setAdd t i.id) (setOfList s)) := rfl

/-! Basic lemmas about the set model. -/

theorem mem_setAdd {s : List String} {x y : String} :
    y ∈ setAdd s x ↔ y ∈ s ∨ y = x := by
  unfold setAdd
  split
  · rename_i h
    constructor
    · exact Or.inl
    · rintro (hy | rfl)
      · exact hy
      · exact h
  · simp [List.mem_append]

theorem mem_foldl_setAdd {l : List String} {s : List String} {y : String} :
    y ∈ l.foldl setAdd s ↔ y ∈ s ∨ y ∈ l := by
  induction l generalizing s with
  | nil => simp
  | cons a t ih =>
    simp only [List.foldl_cons, ih, mem_setAdd, List.mem_cons]
    tauto

theorem mem_setOfList {l : List String} {y : String} :
    y ∈ setOfList l ↔ y ∈ l := by
  unfold setOfList
  rw [mem_foldl_setAdd]
  simp

theorem foldl_setAdd_of_disjoint {l : List String} :
    ∀ {s : List String}, l.Nodup → (∀ x ∈ l, x ∉ s) → l.foldl setAdd s = s ++ l := by
  induction l with
  | nil => intro s _ _; simp
  | cons a t ih =>
    intro s hnd hdis
    have ha : a ∉ s := hdis a (by simp)
    simp only [List.foldl_cons, setAdd, if_neg ha]
    rw [ih hnd.of_cons]
    · simp
    · intro x hx
      simp only [List.mem_append, List.mem_singleton]
      rintro (hxs | rfl)
      · exact hdis x (by simp [hx]) hxs
      · exact (List.nodup_cons.mp hnd).1 hx

theorem setOfList_of_nodup {l : List String} (h : l.Nodup) : setOfList l = l := by
  unfold setOfList
  rw [foldl_setAdd_of_disjoint h (by simp)]
  simp

theorem lastN_of_length_le {n : Nat} {l : List String} (h : l.length ≤ n) :
    lastN n l = l := by
  unfold lastN
  rw [Nat.sub_eq_zero_of_le h, List.drop_zero]

theorem setAdd_nodup {s : List String} (h : s.Nodup) (x : String) :
    (setAdd s x).Nodup := by
  unfold setAdd
  split
  · exact h
  · rename_i hx
    simp [List.nodup_append, h, hx]

theorem foldl_setAdd_nodup {l : List String} :
    ∀ {s : List String}, s.Nodup → (l.foldl setAdd s).Nodup := by
  induction l with
  | nil => intro s h; simpa using h
  | cons a t ih =>
    intro s h
    simpa using ih (setAdd_nodup h a)

theorem setOfList_nodup (l : List String) : (setOfList l).Nodup :=
  foldl_setAdd_nodup List.nodup_nil

/-! The order invariant of the merge engine's sort step. -/

theorem tsDescLe_trans (a b c : Item) :
    tsDescLe a b → tsDescLe b c → tsDescLe a c := by
  simp only [tsDescLe, decide_eq_true_eq]
  omega

theorem tsDescLe_total (a b : Item) : tsDescLe a b || tsDescLe b a := by
  simp only [tsDescLe, Bool.or_eq_true, decide_eq_true_eq]
  omega

/-! The conversation thread filter (src/scrapers/twitter.js lines 165-189)
and the server's merge cycle pollFeeds (same file, lines 284-354). -/

/-- The conversation id the filter actually reads: JS tests
tweet.metadata?.conversation_id for truthiness, so an absent id and an empty
string both count as "no conversation". -/
def convOf (i : Item) : Option String :=
  match i.conversation_id with
  | some c => if c = "" then none else some c
  | none => none

/-- Recursive core of filterTweets: walk the tweet list front to back,
dropping team members and already-seen conversations, recording each
surviving tweet's conversation id into the seen set as it goes.  The JS
mutates its seenConversationIds set in place; here the evolving set is
threaded as an explicit argument.  Neither caller ever reads the mutated
set afterwards (the CLI passes a fresh one and pollFeeds rebuilds the
persisted conversation list from the survivors), so only the filtered
list is returned. -/
def filterTweetsGo (team : List String) :
    List Item → List String → List Item
  | [], _ => []
  | t :: ts, seen =>
    if t.author.toLower ∈ team then
      filterTweetsGo team ts seen
    else
      match convOf t with
      | some c =>
        if c ∈ seen then
          filterTweetsGo team ts seen
        else
          t :: filterTweetsGo team ts (setAdd seen c)
      | none =>
        t :: filterTweetsGo team ts seen

/-- filterTweets of src/scrapers/twitter.js lines 165-189: team is the
lowercased TEAM_TWITTER_USERNAMES list. -/
def filterTweets (tweets : List Item) (team : List String)
    (seenConversationIds : List String) : List Item :=
  filterTweetsGo team tweets seenConversationIds

/-- Everything one pollFeeds cycle persists or feeds to sinks; a none field
means the corresponding call (saveFeed / saveSeen / postBatchToSlack) was
not made. -/
structure ServerResult where
  newItems : List Item
  savedFeed : Option (List Item)
  savedSeen : Option (List String × List String)
  slackBatch : Option (List Item)
deriving Repr, DecidableEq

/-- One merge cycle of pollFeeds (src/scrapers/twitter.js lines 294-344),
given the loaded feed and seen artifact and the three fetched batches.
Unlike the CLI cycle, pollFeeds neither sorts nor truncates: it appends the
admitted items to the current feed and hands that to saveFeed. -/
def serverCycle (currentFeed : List Item) (seenIds0 convs0 : List String)
    (redditPosts githubItems tweets : List Item) (team : List String) :
    ServerResult :=
  let seenIds := setOfList seenIds0
  let seenConversations := setOfList convs0
  let filteredTweets := filterTweets tweets team seenConversations
  let allItems := redditPosts ++ githubItems ++ filteredTweets
  let newItems := filterNewItems allItems seenIds
  if newItems.isEmpty then
    { newItems := [], savedFeed := none, savedSeen := none, slackBatch := none }
  else
    { newItems := newItems
      savedFeed := some (currentFeed ++ newItems)
      savedSeen := some (seenIds0 ++ newItems.map (fun i => i.id),
                         convs0 ++ filteredTweets.filterMap convOf)
      slackBatch := some newItems }

theorem filterTweetsGo_sublist (team : List String) :
    ∀ (ts : List Item) (seen : List String),
      (filterTweetsGo team ts seen).Sublist ts := by
  intro ts
  induction ts with
  | nil => intro seen; simp [filterTweetsGo]
  | cons t ts ih =>
    intro seen
    simp only [filterTweetsGo]
    split
    · exact (ih seen).cons t
    · split
      · split
        · exact (ih seen).cons t
        · exact (ih (setAdd seen _)).cons₂ t
      · exact (ih seen).cons₂ t

/-- What pollFeeds hands to saveFeed: either nothing (no new items) or the
UNsorted, UNtruncated concatenation of the loaded feed with the admitted
items — twitter.js lines 322-325 contain no sort and no slice. -/
theorem serverCycle_savedFeed_concat (sf : List Item) (ss sc : List String)
    (r g t : List Item) (team : List String) :
    (serverCycle sf ss sc r g t team).savedFeed = none
    ∨ (serverCycle sf ss sc r g t team).savedFeed
        = some (sf ++ (serverCycle sf ss sc r g t team).newItems) := by
  simp only [serverCycle]
  split
  · exact Or.inl rfl
  · exact Or.inr rfl

/-- Claim C2, amended.  Every feed produced by the CLI merge cycle's sort
step (scraper-cli.js lines 94-100) is sorted by descending timestamp, the
items carrying any fixed timestamp t appear in exactly the order they had
in the pre-sort concatenation of the current feed with the admitted items
(stability), and the truncated feed of line 100 is sorted as well.  The
server's pollFeeds path (twitter.js lines 322-325) never sorts: the feed it
hands to saveFeed, when it saves at all, is exactly the concatenation of
the current feed with the admitted items — so its relative order trivially
matches the pre-sort concatenation, but the descending-order clause fails
there (see the counterexample). -/
theorem merge_sorted_and_stable (feed newItems : List Item) (t : Int)
    (sf : List Item) (ss sc : List String) (r g tw : List Item)
    (team : List String) :
    List.Pairwise (fun a b => b.timestamp ≤ a.timestamp) (mergeFeed feed newItems)
    ∧ (mergeFeed feed newItems).filter (fun i => decide (i.timestamp = t))
        = (feed ++ newItems).filter (fun i => decide (i.timestamp = t))
    ∧ List.Pairwise (fun a b => b.timestamp ≤ a.timestamp)
        ((mergeFeed feed newItems).take 500)
    ∧ ((serverCycle sf ss sc r g tw team).savedFeed = none
       ∨ (serverCycle sf ss sc r g tw team).savedFeed
           = some (sf ++ (serverCycle sf ss sc r g tw team).newItems)) := by
  have hsorted : List.Pairwise (fun a b => tsDescLe a b = true) (mergeFeed feed newItems) :=
    List.sorted_mergeSort tsDescLe_trans tsDescLe_total (feed ++ newItems)
  have hs : List.Pairwise (fun a b : Item => b.timestamp ≤ a.timestamp)
      (mergeFeed feed newItems) := by
    refine hsorted.imp ?_
    intro a b h
    simpa [tsDescLe] using h
  refine ⟨hs, ?_, hs.sublist (List.take_sublist _ _),
    serverCycle_savedFeed_concat sf ss sc r g tw team⟩
  set p : Item → Bool := fun i => decide (i.timestamp = t) with hp
  have hpair : List.Pairwise (fun a b => tsDescLe a b = true)
      ((feed ++ newItems).filter p) := by
    apply List.pairwise_of_forall_mem_list
    intro a ha b hb
    have ha' := (List.mem_filter.mp ha).2
    have hb' := (List.mem_filter.mp hb).2
    simp only [hp, decide_eq_true_eq] at ha' hb'
    simp [tsDescLe, ha', hb']
  have hsub : ((feed ++ newItems).filter p).Sublist (mergeFeed feed newItems) :=
    List.sublist_mergeSort tsDescLe_trans tsDescLe_total hpair
      (List.filter_sublist _)
  have hsub2 : ((feed ++ newItems).filter p).Sublist
      ((mergeFeed feed newItems).filter p) := by
    have := hsub.filter p
    rwa [List.filter_filter, (by
      funext a
      cases h : p a <;> simp [h] : (fun a => p a && p a) = p)] at this
  have hperm : ((mergeFeed feed newItems).filter p).Perm
      ((feed ++ newItems).filter p) :=
    (List.mergeSort_perm (feed ++ newItems) tsDescLe).filter p
  exact (hsub2.eq_of_length hperm.length_eq.symm).symm

/-- Claim C8.  A merge cycle whose candidate list is empty, or all of whose
candidates carry identifiers already in the seen-set, is a no-op: the
admitted list is empty, the CLI leaves the docs feed exactly as loaded and
never calls saveFeed, and the server calls none of saveFeed, saveSeen or the
Slack sink.  The empty-batches case is the instance where the candidate
lists are empty, making the membership hypotheses vacuous. -/
theorem cycle_noop_when_all_seen (feed0 : List Item)
    (seenIds0 convs0 : List String)
    (allItems redditPosts githubItems tweets : List Item) (team : List String)
    (hcli : ∀ i ∈ allItems, i.id ∈ seenIds0)
    (hsrv : ∀ i ∈ redditPosts ++ githubItems ++ tweets, i.id ∈ seenIds0) :
    (cliCycle feed0 seenIds0 convs0 allItems).newItems = []
    ∧ (cliCycle feed0 seenIds0 convs0 allItems).docsFeed = feed0
    ∧ (cliCycle feed0 seenIds0 convs0 allItems).dataFeed = none
    ∧ (serverCycle feed0 seenIds0 convs0 redditPosts githubItems tweets
        team).newItems = []
    ∧ (serverCycle feed0 seenIds0 convs0 redditPosts githubItems tweets
        team).savedFeed = none
    ∧ (serverCycle feed0 seenIds0 convs0 redditPosts githubItems tweets
        team).savedSeen = none := by
  have hfil : filterNewItems allItems (setOfList seenIds0) = [] := by
    simp only [filterNewItems, List.filter_eq_nil_iff]
    intro i hi
    simp [mem_setOfList, hcli i hi]
  have hfil2 : filterNewItems
      (redditPosts ++ (githubItems
        ++ filterTweets tweets team (setOfList convs0)))
      (setOfList seenIds0) = [] := by
    simp only [filterNewItems, List.filter_eq_nil_iff]
    intro i hi
    have hi' : i ∈ redditPosts ++ githubItems ++ tweets := by
      simp only [List.mem_append] at hi ⊢
      rcases hi with h | h | h
      · exact Or.inl (Or.inl h)
      · exact Or.inl (Or.inr h)
      · exact Or.inr
          ((filterTweetsGo_sublist team tweets (setOfList convs0)).subset h)
    simp [mem_setOfList, hsrv i hi']
  refine ⟨?_, ?_, ?_, ?_, ?_, ?_⟩ <;>
    simp [cliCycle, serverCycle, hfil, hfil2]

/-- Witness for claim C8 at a concrete input: the single candidate's
identifier is already in the seen-set, so both cycles are no-ops. -/
theorem cycle_noop_when_all_seen_witness :
    (cliCycle [] ["a"] [] []).newItems = []
    ∧ (cliCycle [] ["a"] [] []).docsFeed = []
    ∧ (cliCycle [] ["a"] [] []).dataFeed = none
    ∧ (serverCycle [] ["a"] [] [] [] [] []).newItems = []
    ∧ (serverCycle [] ["a"] [] [] [] [] []).savedFeed = none
    ∧ (serverCycle [] ["a"] [] [] [] [] []).savedSeen = none :=
  cycle_noop_when_all_seen [] ["a"] [] [] [] [] [] []
    (by intro i hi; simp at hi) (by intro i hi; simp at hi)

/-! Concrete items used by counterexamples and witnesses. -/

/-- A sample normalized item with identifier a. -/
def itemA : Item :=
  { id := "a", source := "twitter", author := "alice", content := "hello"
    url := "https://x.com/alice/status/1", timestamp := 0
    conversation_id := none }

/-- A sample normalized item with identifier n, newer than itemA. -/
def itemN : Item :=
  { id := "n", source := "reddit", author := "dave", content := "post"
    url := "https://reddit.com/n", timestamp := 5
    conversation_id := none }

/-- A sample normalized item with identifier b. -/
def itemB : Item :=
  { id := "b", source := "twitter", author := "carol", content := "hey"
    url := "https://x.com/carol/status/2", timestamp := 3
    conversation_id := none }

/-- Claim C2, counterexample.  A feed produced by the merge engine's server
path is not sorted descending by timestamp: pollFeeds with current feed
[itemA] (timestamp 0) and one fetched reddit item itemN (timestamp 5) hands
saveFeed the unsorted concatenation [itemA, itemN], whose items are in
ascending order — twitter.js lines 322-325 contain no sort. -/
theorem server_feed_unsorted_counterexample :
    (serverCycle [itemA] [] [] [itemN] [] [] []).savedFeed
      = some [itemA, itemN]
    ∧ ¬ List.Pairwise (fun a b : Item => b.timestamp ≤ a.timestamp)
        [itemA, itemN] := by
  constructor
  · simp [serverCycle, filterTweets, filterTweetsGo, filterNewItems,
      setOfList]
  · intro h
    have hle := List.rel_of_pairwise_cons h (List.mem_singleton_self itemN)
    have : ¬ (itemN.timestamp ≤ itemA.timestamp) := by decide
    exact this hle

/-- Claim C3, counterexample.  A cycle starting from a 501-item feed that
admits one new item writes a 502-item feed to docs/data/feed.json: line 112
of scraper-cli.js persists the sorted feed BEFORE the 500-item truncation,
so the docs artifact, which the spec calls the public read API, is not
capped at 500. -/
theorem docs_artifact_exceeds_cap :
    500 < (cliCycle (List.replicate 501 itemA) [] [] [itemN]).docsFeed.length := by
  have key : ∀ f : List Item, (cliCycle f [] [] [itemN]).docsFeed
      = mergeFeed f [itemN] := by
    intro f
    have hnew : filterNewItems [itemN] (setOfList []) = [itemN] := by
      simp [filterNewItems, setOfList]
    simp [cliCycle, hnew]
  rw [key, mergeFeed, List.length_mergeSort, List.length_append,
    List.length_replicate]
  norm_num

/-- Claim C3, amended.  Only the CLI cycle's saveFeed call is capped: the
CLI hands saveFeed at most 500 items (the slice(0,500) of the sorted feed),
and, provided every current-feed identifier is already in the seen-set at
the start of the cycle, every identifier occurring past position 500 of the
sorted feed (the items the truncation drops) is in the updated in-memory
seen-set.  Neither persisted feed artifact is capped elsewhere: the CLI
writes the docs/data/feed.json artifact without truncation (it can exceed
500, see the counterexample), and the server's pollFeeds hands saveFeed the
untruncated concatenation of the current feed with the admitted items, so
no truncation bounds or drops anything on that path. -/
theorem retention_cap_and_seen (feed0 : List Item)
    (seenIds0 convs0 : List String) (allItems : List Item)
    (sf : List Item) (ss sc : List String) (r g tw : List Item)
    (team : List String)
    (h : ∀ i ∈ feed0, i.id ∈ seenIds0) :
    ((cliCycle feed0 seenIds0 convs0 allItems).dataFeed.getD []).length ≤ 500
    ∧ ((cliCycle feed0 seenIds0 convs0 allItems).docsFeed.drop 500).map
        (fun i => i.id)
      ⊆ (cliCycle feed0 seenIds0 convs0 allItems).seenAfter
    ∧ ((serverCycle sf ss sc r g tw team).savedFeed = none
       ∨ (serverCycle sf ss sc r g tw team).savedFeed
           = some (sf ++ (serverCycle sf ss sc r g tw team).newItems)) := by
  have hmem : ∀ i ∈ feed0 ++ filterNewItems allItems (setOfList seenIds0),
      i.id ∈ (cliCycle feed0 seenIds0 convs0 allItems).seenAfter := by
    intro i hi
    have hseen : (cliCycle feed0 seenIds0 convs0 allItems).seenAfter
        = (filterNewItems allItems (setOfList seenIds0)).foldl
            (fun s j => setAdd s j.id) (setOfList seenIds0) := by
      simp [cliCycle]
    rw [hseen, ← List.foldl_map (fun j : Item => j.id) setAdd,
      mem_foldl_setAdd]
    rcases List.mem_append.mp hi with hf | hn
    · exact Or.inl (mem_setOfList.mpr (h i hf))
    · exact Or.inr (List.mem_map_of_mem _ hn)
  refine ⟨?_, ?_, serverCycle_savedFeed_concat sf ss sc r g tw team⟩
  · by_cases hemp : (filterNewItems allItems (setOfList seenIds0)).isEmpty
    · simp [cliCycle, hemp]
    · simp only [cliCycle, hemp]
      simp [List.length_take]
  · intro x hx
    rcases List.mem_map.mp hx with ⟨i, hi, rfl⟩
    have hi' : i ∈ (cliCycle feed0 seenIds0 convs0 allItems).docsFeed :=
      List.mem_of_mem_drop hi
    apply hmem
    by_cases hemp : (filterNewItems allItems (setOfList seenIds0)).isEmpty
    · have hd : (cliCycle feed0 seenIds0 convs0 allItems).docsFeed = feed0 := by
        simp [cliCycle, hemp]
      rw [hd] at hi'
      exact List.mem_append.mpr (Or.inl hi')
    · have hd : (cliCycle feed0 seenIds0 convs0 allItems).docsFeed
          = mergeFeed feed0 (filterNewItems allItems (setOfList seenIds0)) := by
        simp [cliCycle, hemp]
      rw [hd] at hi'
      simpa [mergeFeed] using hi'

/-- Witness for the amended claim C3 at a concrete input. -/
theorem retention_cap_and_seen_witness :
    ((cliCycle [itemA] ["a"] [] [itemN]).dataFeed.getD []).length ≤ 500
    ∧ ((cliCycle [itemA] ["a"] [] [itemN]).docsFeed.drop 500).map
        (fun i => i.id)
      ⊆ (cliCycle [itemA] ["a"] [] [itemN]).seenAfter
    ∧ ((serverCycle [itemA] [] [] [itemN] [] [] []).savedFeed = none
       ∨ (serverCycle [itemA] [] [] [itemN] [] [] []).savedFeed
           = some ([itemA]
               ++ (serverCycle [itemA] [] [] [itemN] [] [] []).newItems)) :=
  retention_cap_and_seen [itemA] ["a"] [] [itemN] [itemA] [] [] [itemN] [] [] []
    (by intro i hi; simp at hi; simp [hi, itemA])

/-! Families of distinct filler identifiers, used to build seen ledgers
around the 1000-entry retention cap of scraper-cli.js line 116. -/

/-- The n-th filler identifier: a string of n+1 copies of the letter c,
distinct from every identifier that does not start with c. -/
def sid (n : Nat) : String := String.mk (List.replicate (n + 1) 'c')

/-- k distinct filler identifiers. -/
def fillers (k : Nat) : List String := (List.range k).map sid

theorem sid_injective : Function.Injective sid := by
  intro m n h
  have h2 := congrArg List.length (congrArg String.data h)
  simp [sid] at h2
  omega

theorem head_sid (n : Nat) : (sid n).data.head? = some 'c' := by
  simp [sid, List.replicate_succ]

theorem not_mem_fillers {s : String} (hs : s.data.head? ≠ some 'c')
    (k : Nat) : s ∉ fillers k := by
  intro hmem
  rcases List.mem_map.mp hmem with ⟨n, _, rfl⟩
  exact hs (head_sid n)

theorem fillers_nodup (k : Nat) : (fillers k).Nodup :=
  List.Nodup.map sid_injective (List.nodup_range k)

theorem length_fillers (k : Nat) : (fillers k).length = k := by
  simp [fillers]

/-- Seen ledger for the C4 failing input: the identifier a of a feed item,
followed by 1000 distinct filler identifiers, 1001 entries in all. -/
def seenC4 : List String := "a" :: fillers 1000

/-- Claim C4, failing input.  One cycle from feed [itemA], the 1001-entry
ledger seenC4 whose oldest entry is the feed item's identifier a, and one
new candidate itemN: the cycle persists a feed that still contains itemA
(both in the saveFeed artifact and in docs/data/feed.json), yet the
persist-time trim of scraper-cli.js line 116 (keep the last 1000 ledger
entries, independent of the feed) drops the identifier a, contradicting the
claim that the trim never removes an identifier whose item is still in the
feed persisted by the same cycle. -/
theorem seen_trim_forgets_live_feed_item :
    itemA ∈ (cliCycle [itemA] seenC4 [] [itemN]).dataFeed.getD []
    ∧ itemA ∈ (cliCycle [itemA] seenC4 [] [itemN]).docsFeed
    ∧ itemA.id ∉ (cliCycle [itemA] seenC4 [] [itemN]).savedSeenIds := by
  have hnd : seenC4.Nodup := by
    rw [seenC4, List.nodup_cons]
    exact ⟨not_mem_fillers (by decide) 1000, fillers_nodup 1000⟩
  have hset : setOfList seenC4 = seenC4 := setOfList_of_nodup hnd
  have hnmem : ("n" : String) ∉ seenC4 := by
    rw [seenC4]
    simp only [List.mem_cons, not_or]
    exact ⟨by decide, not_mem_fillers (by decide) 1000⟩
  have hnew : filterNewItems [itemN] (setOfList seenC4) = [itemN] := by
    rw [hset]
    simp [filterNewItems, itemN, hnmem]
  have hafter : (cliCycle [itemA] seenC4 [] [itemN]).seenAfter
      = seenC4 ++ ["n"] := by
    rw [cliCycle_seenAfter, hnew, hset, List.foldl_cons, List.foldl_nil,
      show itemN.id = "n" from rfl]
    simp [setAdd, hnmem]
  have hlen2 : (mergeFeed [itemA] [itemN]).length = 2 := by
    rw [mergeFeed, List.length_mergeSort]
    rfl
  have hmemA : itemA ∈ mergeFeed [itemA] [itemN] := by
    rw [mergeFeed, List.mem_mergeSort]
    exact List.mem_append_left _ (List.mem_singleton_self itemA)
  have hsaved : (cliCycle [itemA] seenC4 [] [itemN]).savedSeenIds
      = (fillers 1000).drop 1 ++ ["n"] := by
    rw [cliCycle_savedSeenIds, hnew, hset, List.foldl_cons, List.foldl_nil,
      show itemN.id = "n" from rfl, setAdd, if_neg hnmem, lastN]
    have hl : (seenC4 ++ ["n"]).length - 1000 = 2 := by
      simp [seenC4, length_fillers]
    rw [hl, seenC4, List.cons_append,
      show (2 : Nat) = 1 + 1 from rfl, List.drop_succ_cons,
      List.drop_append_of_le_length (by rw [length_fillers]; omega)]
  refine ⟨?_, ?_, ?_⟩
  · have hd : (cliCycle [itemA] seenC4 [] [itemN]).dataFeed
        = some ((mergeFeed [itemA] [itemN]).take 500) := by
      rw [cliCycle_dataFeed, hnew]
      rfl
    rw [hd, Option.getD_some, List.take_of_length_le (by omega)]
    exact hmemA
  · have hd : (cliCycle [itemA] seenC4 [] [itemN]).docsFeed
        = mergeFeed [itemA] [itemN] := by
      rw [cliCycle_docsFeed, hnew]
      rfl
    rw [hd]
    exact hmemA
  · rw [hsaved]
    simp only [itemA, List.mem_append, List.mem_singleton, not_or]
    refine ⟨fun h => ?_, by decide⟩
    exact not_mem_fillers (by decide) 1000 (List.mem_of_mem_drop h)

/-- Seen ledger for the C1 counterexample: the identifier b (whose item is
still in the feed) as its oldest entry, plus 999 distinct fillers, exactly
1000 entries: the very next admission pushes the ledger over the cap and
the persist-time trim forgets b. -/
def seenC1 : List String := "b" :: fillers 999

/-- Claim C1, counterexample.  Two consecutive CLI cycles over the same
two-item source batch, chained exactly as GitHub Actions runs chain (cycle
two loads the docs feed and the trimmed seen ledger written by cycle one).
Cycle one admits only itemN and its ledger write trims out the identifier b
of a feed item; cycle two therefore re-admits itemB, and the updated feed
contains two items with identifier b, refuting the no-duplicate-id clause
of the claim. -/
theorem readmission_duplicate_counterexample :
    ¬ ((cliCycle (cliCycle [itemB] seenC1 [] [itemB, itemN]).docsFeed
          (cliCycle [itemB] seenC1 [] [itemB, itemN]).savedSeenIds
          [] [itemB, itemN]).docsFeed.map (fun i => i.id)).Nodup := by
  have hnd1 : seenC1.Nodup := by
    rw [seenC1, List.nodup_cons]
    exact ⟨not_mem_fillers (by decide) 999, fillers_nodup 999⟩
  have hset1 : setOfList seenC1 = seenC1 := setOfList_of_nodup hnd1
  have hbmem : ("b" : String) ∈ seenC1 := by
    rw [seenC1]; exact List.mem_cons_self _ _
  have hnmem1 : ("n" : String) ∉ seenC1 := by
    rw [seenC1]
    simp only [List.mem_cons, not_or]
    exact ⟨by decide, not_mem_fillers (by decide) 999⟩
  have hnew1 : filterNewItems [itemB, itemN] (setOfList seenC1) = [itemN] := by
    rw [hset1]
    simp only [filterNewItems, List.filter_cons, List.filter_nil,
      show itemB.id = "b" from rfl, show itemN.id = "n" from rfl]
    simp [hbmem, hnmem1]
  have hdocs1 : (cliCycle [itemB] seenC1 [] [itemB, itemN]).docsFeed
      = mergeFeed [itemB] [itemN] := by
    rw [cliCycle_docsFeed, hnew1]
    rfl
  have hsaved1 : (cliCycle [itemB] seenC1 [] [itemB, itemN]).savedSeenIds
      = fillers 999 ++ ["n"] := by
    rw [cliCycle_savedSeenIds, hnew1, hset1, List.foldl_cons, List.foldl_nil,
      show itemN.id = "n" from rfl, setAdd, if_neg hnmem1, lastN]
    have hl : (seenC1 ++ ["n"]).length - 1000 = 1 := by
      simp [seenC1, length_fillers]
    rw [hl, seenC1, List.cons_append,
      show (1 : Nat) = 0 + 1 from rfl, List.drop_succ_cons, List.drop_zero]
  rw [hdocs1, hsaved1]
  have hnd2 : (fillers 999 ++ ["n"]).Nodup := by
    rw [List.nodup_append]
    refine ⟨fillers_nodup 999, List.nodup_singleton _, ?_⟩
    intro x hx hx'
    rw [List.mem_singleton] at hx'
    subst hx'
    exact not_mem_fillers (by decide) 999 hx
  have hset2 : setOfList (fillers 999 ++ ["n"]) = fillers 999 ++ ["n"] :=
    setOfList_of_nodup hnd2
  have hb2 : ("b" : String) ∉ fillers 999 ++ ["n"] := by
    simp only [List.mem_append, List.mem_singleton, not_or]
    exact ⟨not_mem_fillers (by decide) 999, by decide⟩
  have hn2 : ("n" : String) ∈ fillers 999 ++ ["n"] := by
    simp
  have hnew2 : filterNewItems [itemB, itemN]
      (setOfList (fillers 999 ++ ["n"])) = [itemB] := by
    rw [hset2]
    simp only [filterNewItems, List.filter_cons, List.filter_nil,
      show itemB.id = "b" from rfl, show itemN.id = "n" from rfl]
    simp [hb2, hn2]
  have hdocs2 : (cliCycle (mergeFeed [itemB] [itemN]) (fillers 999 ++ ["n"])
      [] [itemB, itemN]).docsFeed
      = mergeFeed (mergeFeed [itemB] [itemN]) [itemB] := by
    rw [cliCycle_docsFeed, hnew2]
    rfl
  rw [hdocs2]
  have hp1 : (mergeFeed [itemB] [itemN]).Perm [itemB, itemN] :=
    List.mergeSort_perm _ _
  have hp2 : (mergeFeed (mergeFeed [itemB] [itemN]) [itemB]).Perm
      (mergeFeed [itemB] [itemN] ++ [itemB]) :=
    List.mergeSort_perm _ _
  have hcount : List.count "b"
      ((mergeFeed (mergeFeed [itemB] [itemN]) [itemB]).map (fun i => i.id))
      = 2 := by
    rw [(hp2.map (fun i => i.id)).count_eq "b", List.map_append,
      List.count_append, (hp1.map (fun i => i.id)).count_eq "b"]
    decide
  intro h
  have := List.nodup_iff_count_le_one.mp h "b"
  omega

/-- Claim C1, amended.  Admission is by membership: a candidate is admitted
iff its identifier is not in the seen-set loaded at the start of the cycle.
Moreover, PROVIDED the cycle's updated ledger fits in the 1000-entry
retention cap (so the persist-time trim of line 116 drops nothing), and the
start state satisfies the cycle invariants (batch and feed identifiers are
duplicate-free and every current-feed identifier is already in the ledger),
then re-merging the same batch in a second chained cycle admits nothing,
each identifier is admitted at most once across the two cycles, and the
feed persisted by the second cycle has no duplicate identifiers.  The
counterexample shows the proviso is necessary: with a full ledger the trim
can forget a live identifier and the second cycle re-admits it. -/
theorem two_cycle_merge_idempotent (feed0 : List Item)
    (seenIds0 convs0 : List String) (batch : List Item)
    (hb : (batch.map (fun i => i.id)).Nodup)
    (hf : (feed0.map (fun i => i.id)).Nodup)
    (hfs : ∀ i ∈ feed0, i.id ∈ seenIds0)
    (hcap : (cliCycle feed0 seenIds0 convs0 batch).seenAfter.length ≤ 1000) :
    (∀ i ∈ batch,
      (i ∈ (cliCycle feed0 seenIds0 convs0 batch).newItems ↔ i.id ∉ seenIds0))
    ∧ (cliCycle (cliCycle feed0 seenIds0 convs0 batch).docsFeed
        (cliCycle feed0 seenIds0 convs0 batch).savedSeenIds
        convs0 batch).newItems = []
    ∧ (((cliCycle feed0 seenIds0 convs0 batch).newItems
        ++ (cliCycle (cliCycle feed0 seenIds0 convs0 batch).docsFeed
             (cliCycle feed0 seenIds0 convs0 batch).savedSeenIds
             convs0 batch).newItems).map (fun i => i.id)).Nodup
    ∧ ((cliCycle (cliCycle feed0 seenIds0 convs0 batch).docsFeed
        (cliCycle feed0 seenIds0 convs0 batch).savedSeenIds
        convs0 batch).docsFeed.map (fun i => i.id)).Nodup := by
  have hNid : ((filterNewItems batch (setOfList seenIds0)).map
      (fun i => i.id)).Nodup := by
    refine hb.sublist ?_
    exact List.Sublist.map _ (List.filter_sublist _)
  have hafter : (cliCycle feed0 seenIds0 convs0 batch).seenAfter
      = (filterNewItems batch (setOfList seenIds0)).foldl
          (fun t i => setAdd t i.id) (setOfList seenIds0) :=
    cliCycle_seenAfter _ _ _ _
  have hndafter : (cliCycle feed0 seenIds0 convs0 batch).seenAfter.Nodup := by
    rw [hafter, ← List.foldl_map (fun j : Item => j.id) setAdd]
    exact foldl_setAdd_nodup (setOfList_nodup _)
  have htrim : (cliCycle feed0 seenIds0 convs0 batch).savedSeenIds
      = (cliCycle feed0 seenIds0 convs0 batch).seenAfter := by
    rw [cliCycle_savedSeenIds, ← hafter]
    exact lastN_of_length_le hcap
  have hall : ∀ i ∈ batch,
      i.id ∈ (cliCycle feed0 seenIds0 convs0 batch).seenAfter := by
    intro i hi
    rw [hafter, ← List.foldl_map (fun j : Item => j.id) setAdd,
      mem_foldl_setAdd]
    by_cases hid : i.id ∈ setOfList seenIds0
    · exact Or.inl hid
    · refine Or.inr (List.mem_map_of_mem _ ?_)
      exact List.mem_filter.mpr ⟨hi, by simp [hid]⟩
  have hnew2 : filterNewItems batch
      (setOfList ((cliCycle feed0 seenIds0 convs0 batch).savedSeenIds)) = [] := by
    rw [htrim, setOfList_of_nodup hndafter]
    simp only [filterNewItems, List.filter_eq_nil_iff]
    intro i hi
    simp [hall i hi]
  have hnew2' : (cliCycle (cliCycle feed0 seenIds0 convs0 batch).docsFeed
      (cliCycle feed0 seenIds0 convs0 batch).savedSeenIds
      convs0 batch).newItems = [] := by
    rw [cliCycle_newItems, hnew2]
  have hdocs1 : ((cliCycle feed0 seenIds0 convs0 batch).docsFeed.map
      (fun i => i.id)).Nodup := by
    rw [cliCycle_docsFeed]
    by_cases hemp : (filterNewItems batch (setOfList seenIds0)).isEmpty
    · rw [if_pos hemp]
      exact hf
    · rw [if_neg hemp]
      have hperm : ((mergeFeed feed0 (filterNewItems batch (setOfList seenIds0))).map
          (fun i => i.id)).Perm
          ((feed0 ++ filterNewItems batch (setOfList seenIds0)).map
            (fun i => i.id)) :=
        (List.mergeSort_perm _ _).map _
      rw [hperm.nodup_iff, List.map_append, List.nodup_append]
      refine ⟨hf, hNid, ?_⟩
      intro x hx hx'
      rcases List.mem_map.mp hx with ⟨i, hi, rfl⟩
      rcases List.mem_map.mp hx' with ⟨j, hj, hij⟩
      have hjid : ¬ (j.id ∈ setOfList seenIds0) := by
        have := (List.mem_filter.mp hj).2
        simpa using this
      exact hjid (by rw [hij]; exact mem_setOfList.mpr (hfs i hi))
  refine ⟨?_, hnew2', ?_, ?_⟩
  · intro i hi
    rw [cliCycle_newItems]
    simp [filterNewItems, List.mem_filter, mem_setOfList, hi]
  · rw [hnew2']
    simpa using hNid
  · rw [cliCycle_docsFeed, hnew2]
    simpa using hdocs1

/-- Witness for the amended claim C1 at a concrete input: one feed item
already in a one-entry ledger, and a batch of that item plus one fresh one. -/
theorem two_cycle_merge_idempotent_witness :
    (∀ i ∈ [itemA, itemN],
      (i ∈ (cliCycle [itemA] ["a"] [] [itemA, itemN]).newItems ↔ i.id ∉ ["a"]))
    ∧ (cliCycle (cliCycle [itemA] ["a"] [] [itemA, itemN]).docsFeed
        (cliCycle [itemA] ["a"] [] [itemA, itemN]).savedSeenIds
        [] [itemA, itemN]).newItems = []
    ∧ (((cliCycle [itemA] ["a"] [] [itemA, itemN]).newItems
        ++ (cliCycle (cliCycle [itemA] ["a"] [] [itemA, itemN]).docsFeed
             (cliCycle [itemA] ["a"] [] [itemA, itemN]).savedSeenIds
             [] [itemA, itemN]).newItems).map (fun i => i.id)).Nodup
    ∧ ((cliCycle (cliCycle [itemA] ["a"] [] [itemA, itemN]).docsFeed
        (cliCycle [itemA] ["a"] [] [itemA, itemN]).savedSeenIds
        [] [itemA, itemN]).docsFeed.map (fun i => i.id)).Nodup :=
  two_cycle_merge_idempotent [itemA] ["a"] [] [itemA, itemN]
    (by decide) (by decide)
    (by intro i hi; simp at hi; simp [hi, itemA])
    (by decide)

/-! Behaviour of the conversation thread filter (claim C5). -/

theorem filterTweetsGo_filter_none (team : List String) :
    ∀ (ts : List Item) (s : List String),
      (filterTweetsGo team ts s).filter (fun t => decide (convOf t = none))
        = ts.filter (fun t => decide (convOf t = none)
            && !(decide (t.author.toLower ∈ team))) := by
  intro ts
  induction ts with
  | nil => intro s; simp [filterTweetsGo]
  | cons t ts ih =>
    intro s
    simp only [filterTweetsGo]
    by_cases hteam : t.author.toLower ∈ team
    · rw [if_pos hteam, ih s, List.filter_cons]
      simp [hteam]
    · rw [if_neg hteam]
      cases hconv : convOf t with
      | some c =>
        dsimp only
        by_cases hc : c ∈ s
        · rw [if_pos hc, ih s, List.filter_cons]
          simp [hconv, hteam]
        · rw [if_neg hc, List.filter_cons, List.filter_cons,
            if_neg (by simp [hconv]), if_neg (by simp [hconv])]
          exact ih (setAdd s c)
      | none =>
        dsimp only
        rw [List.filter_cons, List.filter_cons,
          if_pos (by simp [hconv]), if_pos (by simp [hconv, hteam]),
          ih s]

theorem filterTweetsGo_filter_conv_of_seen (team : List String) (c : String) :
    ∀ (ts : List Item) (s : List String), c ∈ s →
      (filterTweetsGo team ts s).filter
          (fun t => decide (convOf t = some c)) = [] := by
  intro ts
  induction ts with
  | nil => intro s _; simp [filterTweetsGo]
  | cons t ts ih =>
    intro s hc
    simp only [filterTweetsGo]
    by_cases hteam : t.author.toLower ∈ team
    · rw [if_pos hteam]
      exact ih s hc
    · rw [if_neg hteam]
      cases hconv : convOf t with
      | some c' =>
        dsimp only
        by_cases hc' : c' ∈ s
        · rw [if_pos hc']
          exact ih s hc
        · have hne : ¬ (convOf t = some c) := by
            rw [hconv]
            intro h
            exact hc' (by rw [Option.some.injEq] at h; rw [h]; exact hc)
          rw [if_neg hc', List.filter_cons, if_neg (by simpa using hne)]
          exact ih (setAdd s c') (mem_setAdd.mpr (Or.inl hc))
      | none =>
        dsimp only
        rw [List.filter_cons, if_neg (by simp [hconv])]
        exact ih s hc

theorem filterTweetsGo_filter_conv (team : List String) (c : String) :
    ∀ (pre : List Item) (s : List String), c ∉ s →
      (∀ x ∈ pre, convOf x ≠ some c) →
      ∀ (i : Item) (rest : List Item), convOf i = some c →
        i.author.toLower ∉ team →
        (filterTweetsGo team (pre ++ i :: rest) s).filter
            (fun t => decide (convOf t = some c)) = [i] := by
  intro pre
  induction pre with
  | nil =>
    intro s hc _ i rest hic hia
    simp only [List.nil_append, filterTweetsGo, if_neg hia, hic]
    rw [if_neg hc, List.filter_cons, if_pos (by simp [hic]),
      filterTweetsGo_filter_conv_of_seen team c rest (setAdd s c)
        (mem_setAdd.mpr (Or.inr rfl))]
  | cons x pre ih =>
    intro s hc hpre i rest hic hia
    have hxc : convOf x ≠ some c := hpre x (by simp)
    have hpre' : ∀ y ∈ pre, convOf y ≠ some c := fun y hy => hpre y (by simp [hy])
    simp only [List.cons_append, filterTweetsGo]
    by_cases hteam : x.author.toLower ∈ team
    · rw [if_pos hteam]
      exact ih s hc hpre' i rest hic hia
    · rw [if_neg hteam]
      cases hconv : convOf x with
      | some c' =>
        dsimp only
        by_cases hc' : c' ∈ s
        · rw [if_pos hc']
          exact ih s hc hpre' i rest hic hia
        · have hne : ¬ (decide (convOf x = some c) = true) := by
            simp only [decide_eq_true_eq]
            exact hxc
          rw [if_neg hc', List.filter_cons, if_neg hne]
          refine ih (setAdd s c') ?_ hpre' i rest hic hia
          rw [mem_setAdd]
          rintro (h | rfl)
          · exact hc h
          · exact hxc hconv
      | none =>
        dsimp only
        rw [List.filter_cons, if_neg (by simp [hconv])]
        exact ih s hc hpre' i rest hic hia

/-- First tweet of the sample conversation t1. -/
def tweetT1a : Item :=
  { id := "twitter_1", source := "twitter", author := "erin"
    content := "first", url := "https://x.com/erin/status/1", timestamp := 10
    conversation_id := some "t1" }

/-- Second tweet of the sample conversation t1. -/
def tweetT1b : Item :=
  { id := "twitter_2", source := "twitter", author := "frank"
    content := "second", url := "https://x.com/frank/status/2", timestamp := 9
    conversation_id := some "t1" }

/-- Claim C5.  If the input of filterTweets contains two items sharing a
conversation id c that is not yet in the seen conversation set, where the
first of the two is not author-excluded and no earlier input item carries c,
then the survivors carrying c are exactly that first item (so of the two,
exactly one, the first encountered, survives); and the items without a
conversation id are never thread-filtered: the survivors without one are
exactly the input items without one whose lowercased author is not in the
excluded-authors list. -/
theorem thread_filter_collapse (tweets pre mid post : List Item)
    (i j : Item) (team seenConversationIds : List String) (c : String)
    (htw : tweets = pre ++ i :: (mid ++ j :: post))
    (hic : convOf i = some c) (hjc : convOf j = some c)
    (hseen : c ∉ seenConversationIds)
    (hpre : ∀ x ∈ pre, convOf x ≠ some c)
    (hia : i.author.toLower ∉ team) :
    (filterTweets tweets team seenConversationIds).filter
        (fun t => decide (convOf t = some c)) = [i]
    ∧ i ∈ filterTweets tweets team seenConversationIds
    ∧ (filterTweets tweets team seenConversationIds).filter
        (fun t => decide (convOf t = none))
      = tweets.filter (fun t => decide (convOf t = none)
          && !(decide (t.author.toLower ∈ team))) := by
  subst htw
  have h1 := filterTweetsGo_filter_conv team c pre seenConversationIds hseen
    hpre i (mid ++ j :: post) hic hia
  refine ⟨h1, ?_, filterTweetsGo_filter_none team _ _⟩
  have h2 : i ∈ (filterTweets (pre ++ i :: (mid ++ j :: post)) team
      seenConversationIds).filter (fun t => decide (convOf t = some c)) := by
    show i ∈ (filterTweetsGo team _ _).filter _
    rw [h1]
    exact List.mem_singleton_self i
  exact List.mem_of_mem_filter h2

/-- Witness for claim C5: two tweets of the same fresh conversation t1, no
excluded authors; the first survives, the second is collapsed. -/
theorem thread_filter_collapse_witness :
    (filterTweets [tweetT1a, tweetT1b] [] []).filter
        (fun t => decide (convOf t = some "t1")) = [tweetT1a]
    ∧ tweetT1a ∈ filterTweets [tweetT1a, tweetT1b] [] []
    ∧ (filterTweets [tweetT1a, tweetT1b] [] []).filter
        (fun t => decide (convOf t = none))
      = [tweetT1a, tweetT1b].filter (fun t => decide (convOf t = none)
          && !(decide (t.author.toLower ∈ ([] : List String)))) :=
  thread_filter_collapse [tweetT1a, tweetT1b] [] [] [] tweetT1a tweetT1b
    [] [] "t1" rfl (by decide) (by decide) (by simp) (by simp) (by simp)

/-! The scheduler and the manual-trigger control surface
(src/scrapers/twitter.js, server part: state at lines 213-215, the
/api/refresh handler at lines 234-253, pollFeeds at lines 284-354). -/

/-- Cool-down between accepted manual refreshes, in milliseconds. -/
def MANUAL_REFRESH_THROTTLE_MS : Int := 30000

/-- Outcome the /api/refresh endpoint signals back to its caller. -/
inductive RefreshOutcome where
  | busy
  | throttled (waitSeconds : Int)
  | accepted
deriving Repr, DecidableEq

/-- Scheduler state: the single in-process isPolling flag and the
lastManualRefresh timestamp in ms (initially 0). -/
structure SchedState where
  isPolling : Bool
  lastManualRefresh : Int
deriving Repr, DecidableEq

/-- The manual-refresh guard of the /api/refresh handler: respond busy while
a poll is in flight (regardless of the clock); otherwise, within the
cool-down window measured from the last accepted trigger, respond throttled
with ceil(remaining ms / 1000) seconds to wait (Math.ceil modelled by
floor-division after adding 999); otherwise record the trigger's start time
and start a cycle. -/
def refreshRequest (st : SchedState) (now : Int) :
    RefreshOutcome × SchedState :=
  if st.isPolling then
    (.busy, st)
  else if now - st.lastManualRefresh < MANUAL_REFRESH_THROTTLE_MS then
    (.throttled ((MANUAL_REFRESH_THROTTLE_MS - (now - st.lastManualRefresh)
        + 999) / 1000), st)
  else
    (.accepted, { st with lastManualRefresh := now })

/-- Observable outcome of one pollFeeds invocation. -/
inductive CycleOutcome where
  | skipped
  | completed
  | failed (msg : String)
deriving Repr, DecidableEq

/-- Control skeleton of pollFeeds: the guard returns early (skipped) when a
poll is already in flight; otherwise the flag is raised, the body runs in a
try/catch whose catch only logs, and the finally block lowers the flag on
both the success and the error path.  The body itself is network and disk
I/O, abstracted as an Except outcome; the returned Bool is the isPolling
flag after the call. -/
def pollFeedsRun (isPolling0 : Bool) (body : Except String Unit) :
    Bool × CycleOutcome :=
  if isPolling0 then
    (isPolling0, .skipped)
  else
    match body with
    | .ok _ => (false, .completed)
    | .error e => (false, .failed e)

theorem refreshRequest_not_accepted_state {st : SchedState} {now : Int}
    (h : (refreshRequest st now).1 ≠ .accepted) :
    (refreshRequest st now).2 = st := by
  by_cases hp : st.isPolling
  · simp [refreshRequest, hp]
  · by_cases ht : now - st.lastManualRefresh < MANUAL_REFRESH_THROTTLE_MS
    · simp [refreshRequest, hp, ht]
    · exfalso
      exact h (by simp [refreshRequest, hp, ht])

theorem refreshRequest_accepted_state {st : SchedState} {now : Int}
    (h : (refreshRequest st now).1 = .accepted) :
    (refreshRequest st now).2.lastManualRefresh = now := by
  by_cases hp : st.isPolling
  · simp [refreshRequest, hp] at h
  · by_cases ht : now - st.lastManualRefresh < MANUAL_REFRESH_THROTTLE_MS
    · simp [refreshRequest, hp, ht] at h
    · simp [refreshRequest, hp, ht]

/-- A sequence of manual-refresh requests, each a pair of the isPolling
flag observed at arrival and the arrival time: threads lastManualRefresh
through the handler and collects the outcomes. -/
def runManualTriggers : Int → List (Bool × Int) → Int × List RefreshOutcome
  | last, [] => (last, [])
  | last, (p, now) :: rest =>
    let r := refreshRequest ⟨p, last⟩ now
    let rec2 := runManualTriggers r.2.lastManualRefresh rest
    (rec2.1, r.1 :: rec2.2)

theorem runManualTriggers_clock (reqs : List (Bool × Int)) :
    ∀ last : Int, (runManualTriggers last reqs).1
      = (((reqs.zip (runManualTriggers last reqs).2).filter
          (fun pr => decide (pr.2 = RefreshOutcome.accepted))).map
          (fun pr => pr.1.2)).getLastD last := by
  induction reqs with
  | nil => intro last; simp [runManualTriggers]
  | cons q rest ih =>
    intro last
    obtain ⟨p, now⟩ := q
    simp only [runManualTriggers, List.zip_cons_cons, List.filter_cons]
    by_cases hacc : (refreshRequest ⟨p, last⟩ now).1 = .accepted
    · rw [if_pos (by simpa using hacc), List.map_cons, List.getLastD_cons,
        refreshRequest_accepted_state hacc]
      exact ih now
    · rw [if_neg (by simpa using hacc),
        show (refreshRequest ⟨p, last⟩ now).2.lastManualRefresh = last from
          congrArg SchedState.lastManualRefresh
            (refreshRequest_not_accepted_state hacc)]
      exact ih last

/-- Claim C6.  The manual-trigger gate: while a cycle is running the request
is rejected busy whatever the clock says; while idle but within the
30-second cool-down window measured from the last accepted manual trigger's
start, it is rejected throttled, carrying the remaining wait rounded up to
whole seconds (the returned wait w brackets the remaining r ms as
1000(w-1) < r <= 1000w) and leaving the state untouched; otherwise it is
accepted and a cycle starts, with the trigger's start time recorded. -/
theorem manual_trigger_gate (st : SchedState) (now : Int) :
    (st.isPolling = true → refreshRequest st now = (.busy, st))
    ∧ (st.isPolling = false →
        now - st.lastManualRefresh < MANUAL_REFRESH_THROTTLE_MS →
        refreshRequest st now
          = (.throttled ((MANUAL_REFRESH_THROTTLE_MS
              - (now - st.lastManualRefresh) + 999) / 1000), st)
        ∧ 1000 * ((MANUAL_REFRESH_THROTTLE_MS
              - (now - st.lastManualRefresh) + 999) / 1000 - 1)
            < MANUAL_REFRESH_THROTTLE_MS - (now - st.lastManualRefresh)
        ∧ MANUAL_REFRESH_THROTTLE_MS - (now - st.lastManualRefresh)
            ≤ 1000 * ((MANUAL_REFRESH_THROTTLE_MS
              - (now - st.lastManualRefresh) + 999) / 1000))
    ∧ (st.isPolling = false →
        MANUAL_REFRESH_THROTTLE_MS ≤ now - st.lastManualRefresh →
        refreshRequest st now
          = (.accepted, ⟨false, now⟩)) := by
  refine ⟨?_, ?_, ?_⟩
  · intro hp
    simp [refreshRequest, hp]
  · intro hp hlt
    refine ⟨by simp [refreshRequest, hp, hlt], ?_, ?_⟩
    · have h30 : (0 : Int) < MANUAL_REFRESH_THROTTLE_MS
          - (now - st.lastManualRefresh) := by
        simp only [MANUAL_REFRESH_THROTTLE_MS] at hlt ⊢
        omega
      simp only [MANUAL_REFRESH_THROTTLE_MS] at h30 ⊢
      omega
    · simp only [MANUAL_REFRESH_THROTTLE_MS] at hlt ⊢
      omega
  · intro hp hge
    have hnot : ¬ (now - st.lastManualRefresh < MANUAL_REFRESH_THROTTLE_MS) := by
      omega
    obtain ⟨p, last⟩ := st
    simp only at hp
    subst hp
    simp [refreshRequest, hnot]

/-- Witness for claim C6: busy while running at any clock, throttled with a
25-second wait at t = 5s after an accepted trigger at t = 0, accepted at
exactly the 30-second mark. -/
theorem manual_trigger_gate_witness :
    refreshRequest ⟨true, -1000⟩ 0 = (.busy, ⟨true, -1000⟩)
    ∧ refreshRequest ⟨false, 0⟩ 5000 = (.throttled 25, ⟨false, 0⟩)
    ∧ refreshRequest ⟨false, 0⟩ 30000 = (.accepted, ⟨false, 30000⟩) := by
  refine ⟨(manual_trigger_gate ⟨true, -1000⟩ 0).1 rfl, ?_,
    (manual_trigger_gate ⟨false, 0⟩ 30000).2.2 rfl (by decide)⟩
  have h := ((manual_trigger_gate ⟨false, 0⟩ 5000).2.1 rfl (by decide)).1
  rw [h]
  decide

/-- Claim C9.  A throwing merge-cycle body does not crash the scheduler:
pollFeeds is total on the error path, the finally block lowers the
isPolling flag whatever the body did, a manual trigger arriving afterwards
is never rejected busy, and a scheduled trigger arriving afterwards is not
skipped by the single-flight guard. -/
theorem cycle_failure_recovers (body body2 : Except String Unit)
    (last now : Int) (e : String) :
    (pollFeedsRun false body).1 = false
    ∧ pollFeedsRun false (.error e) = (false, .failed e)
    ∧ (refreshRequest ⟨(pollFeedsRun false body).1, last⟩ now).1
        ≠ RefreshOutcome.busy
    ∧ (pollFeedsRun (pollFeedsRun false body).1 body2).2
        ≠ CycleOutcome.skipped := by
  have h1 : (pollFeedsRun false body).1 = false := by
    cases body <;> simp [pollFeedsRun]
  refine ⟨h1, by simp [pollFeedsRun], ?_, ?_⟩
  · rw [h1]
    simp only [refreshRequest]
    rw [if_neg (by simp)]
    split <;> simp
  · rw [h1]
    cases body2 <;> simp [pollFeedsRun]

/-- Claim C10.  A rejected manual refresh (busy or throttled) leaves the
throttle clock untouched, and over any request sequence the clock always
equals the start time of the most recent accepted manual trigger (or the
initial value when none was accepted), so every cool-down window is
measured from the last accepted trigger's start. -/
theorem rejected_trigger_keeps_clock (st : SchedState) (now : Int)
    (reqs : List (Bool × Int)) (last : Int)
    (hrej : (refreshRequest st now).1 ≠ RefreshOutcome.accepted) :
    (refreshRequest st now).2.lastManualRefresh = st.lastManualRefresh
    ∧ (runManualTriggers last reqs).1
      = (((reqs.zip (runManualTriggers last reqs).2).filter
          (fun pr => decide (pr.2 = RefreshOutcome.accepted))).map
          (fun pr => pr.1.2)).getLastD last :=
  ⟨congrArg SchedState.lastManualRefresh
      (refreshRequest_not_accepted_state hrej),
    runManualTriggers_clock reqs last⟩

/-- Witness for claim C10: a busy rejection keeps the clock, and over the
request trace (idle at t=0, idle at t=5000, idle at t=40000) the final
clock is the last accepted trigger's start. -/
theorem rejected_trigger_keeps_clock_witness :
    (refreshRequest ⟨true, 7⟩ 99).2.lastManualRefresh = 7
    ∧ (runManualTriggers 0 [(false, 0), (false, 5000), (false, 40000)]).1
      = ((([(false, 0), (false, 5000), (false, 40000)].zip
          (runManualTriggers 0
            [(false, 0), (false, 5000), (false, 40000)]).2).filter
          (fun pr => decide (pr.2 = RefreshOutcome.accepted))).map
          (fun pr => pr.1.2)).getLastD 0 :=
  rejected_trigger_keeps_clock ⟨true, 7⟩ 99
    [(false, 0), (false, 5000), (false, 40000)] 0 (by decide)

/-! Source adapter boundaries (claim C7).  Each adapter's network and
parsing work is I/O, abstracted as an Except-valued fetch outcome in its
environment; the definitions mirror which code runs inside the adapter's
try/catch and which runs outside it.  An .error result of the whole
adapter models an exception raised past the adapter boundary. -/

end Feed
